import Mathlib

/-!
Verification of the geospatial processing module of the Explorify map
application (src/components/MapComponent/utils/index.ts and the legacy
helper in src/components/MapComponent.tsx).

Embedding conventions:
* JavaScript numbers are modelled as exact rationals (ℚ); the module only
  performs field arithmetic, comparisons, `Math.abs`, `Math.sqrt`,
  `Math.round` and `%`.
* `Math.sqrt` appears in the source only on the left of strict `<`
  comparisons between non-negative quantities.  Since `Real.sqrt` is
  strictly monotone on non-negatives, `sqrt d < sqrt e ↔ d < e` and
  `sqrt d < t ↔ (0 < t ∧ d < t^2)`; the embedding therefore stores the
  squared distances and compares them with `sqDistLtB` / direct `<`,
  which is an exact translation of the source comparisons.
* A GeoJSON position is a pair `(x, y) = (longitude, latitude)`.
* JS array iteration `for (i; j = (i+1) % n)` over a ring is rendered as a
  sum over `Finset.range n` with the same modular successor index.
-/

/-- A coordinate pair as stored in GeoJSON rings: `(longitude, latitude)`. -/
abbrev Pt := ℚ × ℚ

/-- The `{lat, lng}` record returned by `getPolygonCenter`. -/
structure LatLng where
  lat : ℚ
  lng : ℚ
deriving DecidableEq

/-- Ring-closure normalization shared by `getLargestPolygon` and
`getPolygonCenter`: drop the trailing point when it equals the first point
(the source compares both components of `coords[coords.length-1]` and
`coords[0]`). -/
def cleanRing (coords : List Pt) : List Pt :=
  if coords.getLastD (0, 0) = coords.headD (0, 0) then coords.dropLast else coords

/-- A cyclic sum over a ring: term `i` pairs vertex `i` with vertex
`(i+1) % n`, exactly as the `for` loops in the source do. -/
def cyclicSum (f : Pt → Pt → ℚ) (l : List Pt) : ℚ :=
  ∑ i in Finset.range l.length, f (l.getD i (0, 0)) (l.getD ((i + 1) % l.length) (0, 0))

/-- `cross = xi * yj - xj * yi` for an edge from `p` to `q`. -/
def crossTerm (p q : Pt) : ℚ := p.1 * q.2 - q.1 * p.2

/-- The accumulated `area` variable of the source loops (before the final
division by 2): `Σ (xi*yj - xj*yi)`. -/
def shoelaceSum (l : List Pt) : ℚ := cyclicSum crossTerm l

/-- The accumulated `centroidX` variable: `Σ (xi+xj) * cross`. -/
def weightedSumX (l : List Pt) : ℚ :=
  cyclicSum (fun p q => (p.1 + q.1) * crossTerm p q) l

/-- The accumulated `centroidY` variable: `Σ (yi+yj) * cross`. -/
def weightedSumY (l : List Pt) : ℚ :=
  cyclicSum (fun p q => (p.2 + q.2) * crossTerm p q) l

/-- The unsigned shoelace area `|Σ cross| / 2` of a ring after closure
normalization, as computed inside `getLargestPolygon` for each polygon's
outer ring. -/
def ringArea (coords : List Pt) : ℚ := |shoelaceSum (cleanRing coords)| / 2

/-- `getLargestPolygon`: with exactly one polygon return it; otherwise fold
over all polygons keeping the first polygon whose outer-ring area strictly
exceeds the best so far (initial best: `coordinates[0]` with area `0`). -/
def getLargestPolygon (coordinates : List (List (List Pt))) : List (List Pt) :=
  if coordinates.length = 1 then coordinates.headI
  else
    (coordinates.foldl
      (fun s polygon =>
        if ringArea polygon.headI > s.2 then (polygon, ringArea polygon.headI) else s)
      (coordinates.headI, 0)).1

/-- The body of `getPolygonCenter` acting on the outer ring: signed area
`A = Σ cross / 2`; if `|A| < 1e-10` fall back to the arithmetic mean of the
normalized ring points, otherwise return the area-weighted centroid. -/
def centerOfRing (coords : List Pt) : LatLng :=
  let cleanCoords := cleanRing coords
  let area := shoelaceSum cleanCoords / 2
  if |area| < 1 / 10 ^ 10 then
    { lat := (cleanCoords.map (fun c => c.2)).sum / cleanCoords.length,
      lng := (cleanCoords.map (fun c => c.1)).sum / cleanCoords.length }
  else
    { lat := weightedSumY cleanCoords / (6 * area),
      lng := weightedSumX cleanCoords / (6 * area) }

/-- `getPolygonCenter`: operates on `coordinates[0]`, the outer ring. -/
def getPolygonCenter (coordinates : List (List Pt)) : LatLng :=
  centerOfRing coordinates.headI

/-! ### Color generation (`generateColorFromSeed`) -/

/-- The `{r, g, b}` record produced by the color generator. -/
structure ColorData where
  r : ℤ
  g : ℤ
  b : ℤ
deriving DecidableEq

/-- `Math.round`, for the non-negative arguments it receives here:
round half away from zero equals `⌊q + 1/2⌋` on non-negatives. -/
def jsRound (q : ℚ) : ℤ := ⌊q + 1 / 2⌋

/-- The JS `%` operator on rationals; for the non-negative dividends and
positive divisors used here `a % b = a - b * ⌊a / b⌋`. -/
def jsMod (a b : ℚ) : ℚ := a - b * ⌊a / b⌋

/-- The inner `hslToRgb` conversion of `generateColorFromSeed` (the k-based
formula, with `Math.round` on each channel). -/
def hslToRgb (h s l : ℚ) : ColorData :=
  let h' := h / 360
  let s' := s / 100
  let l' := l / 100
  let a := s' * min l' (1 - l')
  let f : ℚ → ℚ := fun n =>
    let k := jsMod (n + h' * 12) 12
    l' - a * max (min (min (k - 3) (9 - k)) 1) (-1)
  { r := jsRound (f 0 * 255), g := jsRound (f 8 * 255), b := jsRound (f 4 * 255) }

/-- `generateColorFromSeed`: the seed string is modelled as its list of
UTF-16 code units (what `charCodeAt` yields).  The polynomial hash
`hash = hash * 31 + char` is accumulated exactly (the idealization of the
JS double arithmetic); it is non-negative for every input, so the
`Math.abs` calls are embedded as `Int.natAbs`. -/
def generateColorFromSeed (seed : List ℕ) : ColorData :=
  let hash : ℤ := seed.foldl (fun h c => h * 31 + (c : ℤ)) 0
  let hue : ℕ := hash.natAbs % 360
  let saturation : ℕ := 70 + (hash * 13).natAbs % 30
  let lightness : ℕ := 45 + (hash * 7).natAbs % 25
  hslToRgb hue saturation lightness

/-! ### Clustering (`clusterNeighborhoods` and friends) -/

/-- The `Place` records held in the `places` mapping. -/
structure Place where
  id : String
  title : String
  googleMapsLink : Option String
deriving DecidableEq

/-- A `NeighborhoodFeature`: `properties.ntaname`, `properties.boroname`,
the optional cluster metadata, and `geometry.coordinates` (a MultiPolygon:
list of polygons, each a list of rings). -/
structure NeighborhoodFeature where
  ntaname : String
  boroname : String
  originalNtaname : Option String
  clusterMembers : Option (List String)
  coordinates : List (List (List Pt))
deriving DecidableEq

instance : Inhabited NeighborhoodFeature := ⟨⟨"", "", none, none, []⟩⟩

/-- The `places` object maps a neighborhood name to its list of places; a
name with no entry yields the empty list (`places?.[name] || []`). -/
abbrev PlacesMap := String → List Place

/-- `places?.[feature.properties.ntaname] || []`. -/
def placesFor (places : Option PlacesMap) (f : NeighborhoodFeature) : List Place :=
  match places with
  | none => []
  | some m => m f.ntaname

/-- `getPlaceCount` from the source. -/
def getPlaceCount (places : Option PlacesMap) (f : NeighborhoodFeature) : ℕ :=
  (placesFor places f).length

/-- `hasPlaces` from the source (`length > 0`). -/
def hasPlacesB (places : Option PlacesMap) (f : NeighborhoodFeature) : Bool :=
  decide (0 < getPlaceCount places f)

/-- The centroid used throughout clustering:
`getPolygonCenter(getLargestPolygon(feature.geometry.coordinates))`. -/
def featureCenter (f : NeighborhoodFeature) : LatLng :=
  getPolygonCenter (getLargestPolygon f.coordinates)

/-- The squared planar distance between two `{lat, lng}` points. The source
takes `Math.sqrt` of this and only ever compares the result with `<`;
since the square root is strictly monotone the embedding compares the
squares directly. -/
def sqDist (p q : LatLng) : ℚ := (p.lat - q.lat) ^ 2 + (p.lng - q.lng) ^ 2

/-- `Math.sqrt dsq < t`, expressed without square roots: a non-negative
root is below `t` exactly when `t` is positive and `dsq < t^2`. -/
def sqDistLtB (dsq t : ℚ) : Bool := decide (0 < t ∧ dsq < t ^ 2)

/-- The first pass of `clusterNeighborhoods`: walk the feature indices in
order; for each not-yet-processed index start a group, sweep all indices
and absorb every unprocessed other feature whose centroid is within
`clusterDistance`, and record the group's (squared) distance from the map
center measured at the seed feature's centroid. -/
def buildClusters (features : List NeighborhoodFeature) (clusterDistance : ℚ)
    (mapCenter : LatLng) :
    List ℕ → List ℕ → List (List NeighborhoodFeature × ℚ)
  | [], _ => []
  | i :: rest, processed =>
    if i ∈ processed then buildClusters features clusterDistance mapCenter rest processed
    else
      let f := features.getD i default
      let center := featureCenter f
      let selected := (List.range features.length).filter fun j =>
        !(processed.contains j) && !(j == i) &&
          sqDistLtB (sqDist center (featureCenter (features.getD j default))) clusterDistance
      let cluster := f :: selected.map fun j => features.getD j default
      (cluster, sqDist mapCenter center) ::
        buildClusters features clusterDistance mapCenter rest (processed ++ i :: selected)

/-- The `cluster.reduce` used when no member has places: keep the feature
whose centroid is strictly closer to the map center. -/
def reduceClosest (mapCenter : LatLng) (first : NeighborhoodFeature)
    (rest : List NeighborhoodFeature) : NeighborhoodFeature :=
  rest.foldl
    (fun closest current =>
      if sqDist mapCenter (featureCenter current) < sqDist mapCenter (featureCenter closest)
      then current else closest)
    first

/-- The `neighborhoodsWithPlaces.reduce` of the central cluster: strictly
more places wins; equal place counts fall back to strictly smaller distance
to the map center. -/
def reduceMostPlacesThenClosest (places : Option PlacesMap) (mapCenter : LatLng)
    (first : NeighborhoodFeature) (rest : List NeighborhoodFeature) : NeighborhoodFeature :=
  rest.foldl
    (fun best current =>
      if getPlaceCount places current > getPlaceCount places best then current
      else if getPlaceCount places current = getPlaceCount places best then
        if sqDist mapCenter (featureCenter current) < sqDist mapCenter (featureCenter best)
        then current else best
      else best)
    first

/-- The `neighborhoodsWithPlaces.reduce` of non-central clusters: strictly
more places wins, first wins otherwise. -/
def reduceMostPlaces (places : Option PlacesMap) (first : NeighborhoodFeature)
    (rest : List NeighborhoodFeature) : NeighborhoodFeature :=
  rest.foldl
    (fun best current =>
      if getPlaceCount places current > getPlaceCount places best then current else best)
    first

/-- The representative selection of `clusterNeighborhoods` for a group
(`isCentral` says whether the group is the one closest to the map center,
decided in the source by `cluster === centralCluster.cluster`).  The
`default` branch is unreachable: every group contains its seed feature. -/
def selectRepresentative (places : Option PlacesMap) (mapCenter : LatLng)
    (isCentral : Bool) (cluster : List NeighborhoodFeature) : NeighborhoodFeature :=
  if isCentral then
    match cluster.filter (hasPlacesB places) with
    | [] =>
      match cluster with
      | [] => default
      | f0 :: rest => reduceClosest mapCenter f0 rest
    | w0 :: wrest => reduceMostPlacesThenClosest places mapCenter w0 wrest
  else
    match cluster.filter (hasPlacesB places) with
    | [] => cluster.headI
    | w0 :: wrest => reduceMostPlaces places w0 wrest

/-- The second pass of `clusterNeighborhoods` applied to one group:
singleton groups pass through unchanged; larger groups get the selected
representative with a rewritten display name, `originalNtaname` and
`clusterMembers`.  For a 2-member group the source evaluates
`cluster.find(f => f !== representative)`, i.e. the member object other
than the representative object; at the value level this is the second
member when the representative is the first and the first member
otherwise. -/
def processCluster (places : Option PlacesMap) (mapCenter : LatLng)
    (isCentral : Bool) (cluster : List NeighborhoodFeature) : NeighborhoodFeature :=
  match cluster with
  | [] => default
  | [f] => f
  | f0 :: f1 :: rest =>
    let cl := f0 :: f1 :: rest
    let representative := selectRepresentative places mapCenter isCentral cl
    let newName :=
      if cl.length = 2 then
        representative.ntaname ++ " & " ++ (if representative = f0 then f1 else f0).ntaname
      else representative.ntaname ++ " (+" ++ toString (cl.length - 1) ++ ")"
    { representative with
      ntaname := newName
      originalNtaname := some representative.ntaname
      clusterMembers := some (cl.map fun f => f.ntaname) }

/-- `clusterNeighborhoods`.  The central group is found with
`allClusters.reduce(...)`, which throws a `TypeError` on an empty array;
the embedding returns `none` in that case.  The reduce keeps the first
group attaining the minimum distance, and the source then tests each
group with `cluster === centralCluster.cluster` — reference equality on
the per-group array objects, i.e. equality of positions in `allClusters`,
which the embedding carries as the `enum` index. -/
def clusterNeighborhoods (features : List NeighborhoodFeature) (clusterDistance : ℚ)
    (mapCenter : LatLng) (places : Option PlacesMap) :
    Option (List NeighborhoodFeature) :=
  let allClusters := buildClusters features clusterDistance mapCenter
    (List.range features.length) []
  match allClusters with
  | [] => none
  | c0 :: crest =>
    let centralIdx :=
      ((c0 :: crest).enum.tail.foldl
        (fun closest current => if current.2.2 < closest.2.2 then current else closest)
        (0, c0)).1
    some ((c0 :: crest).enum.map fun p =>
      processCluster places mapCenter (p.1 == centralIdx) p.2.1)

/-! ### Zoom gating and point location -/

/-- `shouldClusterLabels` as exported from
`MapComponent/utils/index.ts`: threshold `0.08`. -/
def shouldClusterLabels (latitudeDelta : ℚ) : Bool := latitudeDelta > 8 / 100

/-- The `Region` record of `react-native-maps` as consumed by the local
helper in `MapComponent.tsx`. -/
structure MapRegion where
  latitude : ℚ
  longitude : ℚ
  latitudeDelta : ℚ
  longitudeDelta : ℚ

/-- The second, component-local `shouldClusterLabels` defined inside
`MapComponent.tsx`: threshold `0.05`. -/
def shouldClusterLabelsComponent (mapRegion : MapRegion) : Bool :=
  mapRegion.latitudeDelta > 5 / 100

/-- A `{latitude, longitude}` point as passed to the point locator. -/
structure Coordinate where
  latitude : ℚ
  longitude : ℚ
deriving DecidableEq

/-- `isPointInPolygon`: ray casting over the outer ring `polygon[0]`.  The
source pairs index `i` with `j = i - 1 (mod n)`; `l.zip (l.rotate (n-1))`
produces exactly the pairs `(l[i], l[(i-1) % n])` in order.  The division
is only evaluated when `(yi > y) ≠ (yj > y)`, which forces `yj ≠ yi`. -/
def isPointInPolygon (point : Coordinate) (polygon : List (List Pt)) : Bool :=
  let x := point.longitude
  let y := point.latitude
  let coords := polygon.headI
  (coords.zip (coords.rotate (coords.length - 1))).foldl
    (fun inside e =>
      let xi := e.1.1
      let yi := e.1.2
      let xj := e.2.1
      let yj := e.2.2
      if (decide (yi > y) != decide (yj > y)) &&
          decide (x < (xj - xi) * (y - yi) / (yj - yi) + xi)
      then !inside else inside)
    false

/-- `findNeighborhoodForCoordinate`: first region, in input order, one of
whose polygons contains the point; `null` (here `none`) otherwise. -/
def findNeighborhoodForCoordinate (coordinate : Coordinate) :
    List NeighborhoodFeature → Option NeighborhoodFeature
  | [] => none
  | n :: rest =>
    if n.coordinates.any (fun polygon => isPointInPolygon coordinate polygon)
    then some n
    else findNeighborhoodForCoordinate coordinate rest

/-! ### Sample data used by the witness theorems -/

/-- A triangular region with centroid `(1, 1)`. -/
def sampleA : NeighborhoodFeature :=
  ⟨"A", "X", none, none, [[[(0, 0), (3, 0), (0, 3)]]]⟩

/-- The same triangle shifted `0.01` east: centroid `(1.01, 1)`, i.e. at
planar distance `0.01` from `sampleA`'s centroid. -/
def sampleB : NeighborhoodFeature :=
  ⟨"B", "X", none, none, [[[(1/100, 0), (301/100, 0), (1/100, 3)]]]⟩

/-- A places table giving `B` two places and `A` one. -/
def samplePlaces : PlacesMap := fun n =>
  if n = "B" then [⟨"1", "p1", none⟩, ⟨"2", "p2", none⟩]
  else if n = "A" then [⟨"3", "p3", none⟩]
  else []

/-- A unit-square region. -/
def sampleSquare : NeighborhoodFeature :=
  ⟨"Sq", "X", none, none, [[[(0, 0), (1, 0), (1, 1), (0, 1)]]]⟩

/-! ### Helper lemmas -/

lemma ringArea_nonneg (coords : List Pt) : 0 ≤ ringArea coords :=
  div_nonneg (abs_nonneg _) (by norm_num)

/-- `findNeighborhoodForCoordinate` misses exactly the regions none of
whose polygons contain the point. -/
lemma findNeighborhood_none (pt : Coordinate) (ns : List NeighborhoodFeature)
    (h : ∀ r ∈ ns, r.coordinates.any (fun poly => isPointInPolygon pt poly) = false) :
    findNeighborhoodForCoordinate pt ns = none := by
  induction ns with
  | nil => rfl
  | cons n rest ih =>
    rw [findNeighborhoodForCoordinate]
    rw [h n (List.mem_cons_self n rest)]
    exact ih fun r hr => h r (List.mem_cons_of_mem n hr)

lemma findNeighborhood_some (pt : Coordinate) (ns : List NeighborhoodFeature)
    (r : NeighborhoodFeature) (h : findNeighborhoodForCoordinate pt ns = some r) :
    r.coordinates.any (fun poly => isPointInPolygon pt poly) = true ∧
    ∃ pre post, ns = pre ++ r :: post ∧
      ∀ p ∈ pre, p.coordinates.any (fun poly => isPointInPolygon pt poly) = false := by
  induction ns with
  | nil => simp [findNeighborhoodForCoordinate] at h
  | cons n rest ih =>
    rw [findNeighborhoodForCoordinate] at h
    by_cases hn : n.coordinates.any (fun poly => isPointInPolygon pt poly) = true
    · rw [if_pos hn] at h
      obtain rfl : n = r := by injection h
      exact ⟨hn, [], rest, rfl, by simp⟩
    · rw [if_neg hn] at h
      obtain ⟨h1, pre, post, h2, h3⟩ := ih h
      refine ⟨h1, n :: pre, post, by rw [h2]; rfl, ?_⟩
      intro p hp
      rcases List.mem_cons.mp hp with rfl | hp
      · exact Bool.not_eq_true _ ▸ (by simpa using hn)
      · exact h3 p hp

/-- Bounds for one rounded channel `round((l' - a·m) · 255)` when
`l' ∈ [0,1]`, `0 ≤ a ≤ min l' (1-l')` and `m ∈ [-1,1]`. -/
lemma jsRound_channel_bound (l' a m : ℚ) (hl0 : 0 ≤ l') (hl1 : l' ≤ 1)
    (ha0 : 0 ≤ a) (ham : a ≤ min l' (1 - l')) (hm0 : -1 ≤ m) (hm1 : m ≤ 1) :
    0 ≤ jsRound ((l' - a * m) * 255) ∧ jsRound ((l' - a * m) * 255) ≤ 255 := by
  have h1 : a * m ≤ a := mul_le_of_le_one_right ha0 hm1
  have h2 : a * -1 ≤ a * m := mul_le_mul_of_nonneg_left hm0 ha0
  have h3 : a ≤ l' := le_trans ham (min_le_left _ _)
  have h4 : a ≤ 1 - l' := le_trans ham (min_le_right _ _)
  have hf0 : 0 ≤ l' - a * m := by linarith
  have hf1 : l' - a * m ≤ 1 := by nlinarith
  constructor
  · exact Int.le_floor.mpr (by push_cast; nlinarith)
  · have : jsRound ((l' - a * m) * 255) < 256 :=
      Int.floor_lt.mpr (by push_cast; nlinarith)
    omega

/-- Every channel produced by `hslToRgb` lies in `[0, 255]` whenever the
saturation and lightness inputs lie in `[0, 100]`. -/
lemma hslToRgb_channels_bounded (h s l : ℚ) (hs0 : 0 ≤ s) (hs1 : s ≤ 100)
    (hl0 : 0 ≤ l) (hl1 : l ≤ 100) :
    (0 ≤ (hslToRgb h s l).r ∧ (hslToRgb h s l).r ≤ 255) ∧
    (0 ≤ (hslToRgb h s l).g ∧ (hslToRgb h s l).g ≤ 255) ∧
    (0 ≤ (hslToRgb h s l).b ∧ (hslToRgb h s l).b ≤ 255) := by
  have hl'0 : 0 ≤ l / 100 := by linarith
  have hl'1 : l / 100 ≤ 1 := by linarith
  have hmin0 : 0 ≤ min (l / 100) (1 - l / 100) := le_min hl'0 (by linarith)
  have ha0 : 0 ≤ s / 100 * min (l / 100) (1 - l / 100) :=
    mul_nonneg (by linarith) hmin0
  have ham : s / 100 * min (l / 100) (1 - l / 100) ≤ min (l / 100) (1 - l / 100) :=
    mul_le_of_le_one_left hmin0 (by linarith)
  have hbound : ∀ n : ℚ,
      0 ≤ jsRound ((l / 100 -
          s / 100 * min (l / 100) (1 - l / 100) *
            max (min (min (jsMod (n + h / 360 * 12) 12 - 3)
              (9 - jsMod (n + h / 360 * 12) 12)) 1) (-1)) * 255) ∧
      jsRound ((l / 100 -
          s / 100 * min (l / 100) (1 - l / 100) *
            max (min (min (jsMod (n + h / 360 * 12) 12 - 3)
              (9 - jsMod (n + h / 360 * 12) 12)) 1) (-1)) * 255) ≤ 255 := by
    intro n
    exact jsRound_channel_bound _ _ _ hl'0 hl'1 ha0 ham (le_max_right _ _)
      (max_le (le_trans (min_le_right _ _) le_rfl) (by norm_num))
  simp only [hslToRgb]
  exact ⟨hbound 0, hbound 8, hbound 4⟩

/-- Behavior of the fold inside `getLargestPolygon`: either no polygon
beats the initial best area and the state is unchanged, or the result is
the first list entry attaining the maximal area (strict improvement is
required to replace the best, so earlier entries win ties). -/
lemma largestPolygon_fold_spec (l : List (List (List Pt))) :
    ∀ (b : List (List Pt)) (a : ℚ),
    (l.foldl
        (fun s polygon =>
          if ringArea polygon.headI > s.2 then (polygon, ringArea polygon.headI) else s)
        (b, a) = (b, a) ∧ ∀ p ∈ l, ringArea p.headI ≤ a) ∨
    (∃ i, i < l.length ∧
      l.foldl
        (fun s polygon =>
          if ringArea polygon.headI > s.2 then (polygon, ringArea polygon.headI) else s)
        (b, a) = (l.getD i [], ringArea ((l.getD i []).headI)) ∧
      a < ringArea ((l.getD i []).headI) ∧
      (∀ j, j < l.length → ringArea ((l.getD j []).headI) ≤ ringArea ((l.getD i []).headI)) ∧
      (∀ j, j < i → ringArea ((l.getD j []).headI) < ringArea ((l.getD i []).headI))) := by
  induction l with
  | nil => intro b a; left; exact ⟨rfl, by simp⟩
  | cons p t ih =>
    intro b a
    rw [List.foldl_cons]
    by_cases hp : ringArea p.headI > a
    · rw [if_pos hp]
      rcases ih p (ringArea p.headI) with ⟨heq, hall⟩ | ⟨i, hi, heq, hlt, hall, hfirst⟩
      · right
        refine ⟨0, by simp, by simpa using heq, by simpa using hp, ?_, by omega⟩
        intro j hj
        match j with
        | 0 => simp
        | j + 1 =>
          simp only [List.getD_cons_succ, List.getD_cons_zero]
          have hj' : j < t.length := by simpa using hj
          rw [List.getD_eq_getElem t [] hj']
          exact hall _ (List.getElem_mem hj')
      · right
        refine ⟨i + 1, by simpa using hi, by simpa using heq,
          lt_trans hp (by simpa using hlt), ?_, ?_⟩
        · intro j hj
          match j with
          | 0 => exact le_of_lt (by simpa using hlt)
          | j + 1 =>
            simp only [List.getD_cons_succ]
            exact hall j (by simpa using hj)
        · intro j hj
          match j with
          | 0 => simpa using hlt
          | j + 1 =>
            simp only [List.getD_cons_succ]
            exact hfirst j (by omega)
    · rw [if_neg hp]
      rcases ih b a with ⟨heq, hall⟩ | ⟨i, hi, heq, hlt, hall, hfirst⟩
      · left
        refine ⟨heq, ?_⟩
        intro q hq
        rcases List.mem_cons.mp hq with rfl | hq
        · exact not_lt.mp hp
        · exact hall q hq
      · right
        refine ⟨i + 1, by simpa using hi, by simpa using heq,
          by simpa using hlt, ?_, ?_⟩
        · intro j hj
          match j with
          | 0 => exact le_of_lt (lt_of_le_of_lt (not_lt.mp hp) (by simpa using hlt))
          | j + 1 =>
            simp only [List.getD_cons_succ]
            exact hall j (by simpa using hj)
        · intro j hj
          match j with
          | 0 => exact lt_of_le_of_lt (not_lt.mp hp) (by simpa using hlt)
          | j + 1 =>
            simp only [List.getD_cons_succ]
            exact hfirst j (by omega)

/-! ### Claim theorems -/

/-- C9: for every point and region list, `findNeighborhoodForCoordinate`
returns the first region in input order one of whose polygons passes the
ray-casting containment test, and returns the explicit not-found result
`none` (never an error — the embedding is a total function) when no
region contains the point. -/
theorem findNeighborhoodForCoordinate_first_match (pt : Coordinate)
    (ns : List NeighborhoodFeature) :
    ((∀ r ∈ ns, r.coordinates.any (fun poly => isPointInPolygon pt poly) = false) →
      findNeighborhoodForCoordinate pt ns = none) ∧
    (∀ r, findNeighborhoodForCoordinate pt ns = some r →
      r.coordinates.any (fun poly => isPointInPolygon pt poly) = true ∧
      ∃ pre post, ns = pre ++ r :: post ∧
        ∀ p ∈ pre, p.coordinates.any (fun poly => isPointInPolygon pt poly) = false) :=
  ⟨findNeighborhood_none pt ns, fun r h => findNeighborhood_some pt ns r h⟩

/-- Witness for C9: a point inside the unit square resolves to the square
region (which is the first and only match), and a far-away point resolves
to `none`. -/
theorem findNeighborhoodForCoordinate_first_match_witness :
    (findNeighborhoodForCoordinate ⟨5, 5⟩ [sampleSquare] = none) ∧
    (sampleSquare.coordinates.any
        (fun poly => isPointInPolygon ⟨1/2, 1/2⟩ poly) = true ∧
      ∃ pre post, [sampleSquare] = pre ++ sampleSquare :: post ∧
        ∀ p ∈ pre, p.coordinates.any
          (fun poly => isPointInPolygon ⟨1/2, 1/2⟩ poly) = false) :=
  ⟨(findNeighborhoodForCoordinate_first_match ⟨5, 5⟩ [sampleSquare]).1 (by
      intro r hr
      rw [List.mem_singleton.mp hr]
      norm_num [sampleSquare, isPointInPolygon, List.rotate]),
   (findNeighborhoodForCoordinate_first_match ⟨1/2, 1/2⟩ [sampleSquare]).2
      sampleSquare (by
        norm_num [findNeighborhoodForCoordinate, sampleSquare, isPointInPolygon,
          List.rotate])⟩

/-- C3 (code bug): the source does NOT use a single threshold constant.
The exported `shouldClusterLabels` in `MapComponent/utils/index.ts` uses
`0.08`, while the second live copy inside `MapComponent.tsx` uses `0.05`;
at `latitudeDelta = 0.051` the two disagree, and the repository's own unit
test (`utils/__tests__/index.test.ts`) asserts
`shouldClusterLabels(0.051) === true`, which the exported implementation
violates. -/
theorem shouldClusterLabels_threshold_disagreement :
    shouldClusterLabels (51/1000) = false ∧
    shouldClusterLabelsComponent ⟨0, 0, 51/1000, 0⟩ = true := by
  constructor
  · norm_num [shouldClusterLabels]
  · norm_num [shouldClusterLabelsComponent]

/-- C4: for every outer ring whose normalized unsigned shoelace area is at
least `1e-10`, `getPolygonCenter` returns exactly the area-weighted
centroid `{lat := Σ(yi+yj)·cross / (6A), lng := Σ(xi+xj)·cross / (6A)}`
with `A = Σ cross / 2`; in particular the ring `(0,0),(3,0),(0,3)`, open
or closed, yields exactly `(1, 1)` (hence within `1e-6`). -/
theorem getPolygonCenter_weighted_centroid :
    (∀ coords : List Pt,
      1 / 10 ^ 10 ≤ |shoelaceSum (cleanRing coords) / 2| →
      getPolygonCenter [coords] =
        { lat := weightedSumY (cleanRing coords) /
            (6 * (shoelaceSum (cleanRing coords) / 2)),
          lng := weightedSumX (cleanRing coords) /
            (6 * (shoelaceSum (cleanRing coords) / 2)) }) ∧
    getPolygonCenter [[(0, 0), (3, 0), (0, 3)]] = ⟨1, 1⟩ ∧
    getPolygonCenter [[(0, 0), (3, 0), (0, 3), (0, 0)]] = ⟨1, 1⟩ := by
  refine ⟨fun coords h => ?_,
    by norm_num [getPolygonCenter, centerOfRing, cleanRing, shoelaceSum, weightedSumX,
      weightedSumY, cyclicSum, crossTerm, Finset.sum_range_succ],
    by norm_num [getPolygonCenter, centerOfRing, cleanRing, shoelaceSum, weightedSumX,
      weightedSumY, cyclicSum, crossTerm, Finset.sum_range_succ]⟩
  simp only [getPolygonCenter, centerOfRing, List.headI]
  rw [if_neg (not_lt.mpr h)]

/-- Witness for C4: the open triangle has `A = 9/2 ≥ 1e-10` and the
weighted-centroid formula evaluates to `(1, 1)` there. -/
theorem getPolygonCenter_weighted_centroid_witness :
    getPolygonCenter [[(0, 0), (3, 0), (0, 3)]] =
      { lat := weightedSumY (cleanRing [(0, 0), (3, 0), (0, 3)]) /
          (6 * (shoelaceSum (cleanRing [(0, 0), (3, 0), (0, 3)]) / 2)),
        lng := weightedSumX (cleanRing [(0, 0), (3, 0), (0, 3)]) /
          (6 * (shoelaceSum (cleanRing [(0, 0), (3, 0), (0, 3)]) / 2)) } :=
  (getPolygonCenter_weighted_centroid.1 [(0, 0), (3, 0), (0, 3)]
    (by
      norm_num [shoelaceSum, cleanRing, cyclicSum, crossTerm, Finset.sum_range_succ]
      rw [abs_of_nonneg (by norm_num : (0:ℚ) ≤ 9/2)]
      norm_num))

/-- C6: for every outer ring that is nonempty after closure normalization
and whose unsigned shoelace area is below `1e-10`, `getPolygonCenter`
returns exactly the arithmetic mean of the normalized ring points (the
embedding is a total function, so nothing is raised and the rational
arithmetic produces no NaN); in particular the ring `(0,0),(0,0),(0,0)`
yields exactly `(0, 0)`. -/
theorem getPolygonCenter_degenerate_fallback :
    (∀ coords : List Pt, cleanRing coords ≠ [] →
      |shoelaceSum (cleanRing coords) / 2| < 1 / 10 ^ 10 →
      getPolygonCenter [coords] =
        { lat := ((cleanRing coords).map (fun c => c.2)).sum / (cleanRing coords).length,
          lng := ((cleanRing coords).map (fun c => c.1)).sum / (cleanRing coords).length }) ∧
    getPolygonCenter [[(0, 0), (0, 0), (0, 0)]] = ⟨0, 0⟩ := by
  refine ⟨fun coords _ h => ?_,
    by norm_num [getPolygonCenter, centerOfRing, cleanRing, shoelaceSum, weightedSumX,
      weightedSumY, cyclicSum, crossTerm, Finset.sum_range_succ]⟩
  simp only [getPolygonCenter, centerOfRing, List.headI]
  rw [if_pos h]

/-- Appending a copy of the first vertex to a ring adds only the
degenerate edge from that vertex to itself to the cyclic edge sums, so any
cyclic sum whose term vanishes on identical endpoints is unchanged. -/
lemma cyclicSum_append_headI (f : Pt → Pt → ℚ) (hf : ∀ p, f p p = 0)
    (x : Pt) (xs : List Pt) :
    cyclicSum f ((x :: xs) ++ [x]) = cyclicSum f (x :: xs) := by
  unfold cyclicSum
  have hlen : ((x :: xs) ++ [x]).length = (x :: xs).length + 1 := by simp
  rw [hlen, Finset.sum_range_succ]
  have hlast1 : ((x :: xs) ++ [x]).getD (x :: xs).length (0, 0) = x := by
    rw [List.getD_append_right _ _ _ _ le_rfl]
    simp
  have hlast2 : ((x :: xs) ++ [x]).getD
      (((x :: xs).length + 1) % ((x :: xs).length + 1)) (0, 0) = x := by
    rw [Nat.mod_self]
    rfl
  rw [hlast1, hlast2, hf, add_zero]
  apply Finset.sum_congr rfl
  intro i hi
  have hi' : i < (x :: xs).length := Finset.mem_range.mp hi
  rw [List.getD_append _ _ _ _ hi']
  have hmod : (i + 1) % ((x :: xs).length + 1) = i + 1 := Nat.mod_eq_of_lt (by omega)
  rw [hmod]
  by_cases hieq : i + 1 = (x :: xs).length
  · have h2 : ((x :: xs) ++ [x]).getD (i + 1) (0, 0) = x := by rw [hieq]; exact hlast1
    have h3 : (i + 1) % (x :: xs).length = 0 := by rw [hieq]; exact Nat.mod_self _
    rw [h2, h3]
    rfl
  · have hlt : i + 1 < (x :: xs).length := by omega
    rw [List.getD_append _ _ _ _ hlt, Nat.mod_eq_of_lt hlt]

/-- For a ring whose last point equals its first, the cyclic sums over the
ring and over the ring with its trailing point dropped coincide (the only
difference is a degenerate self-edge). -/
lemma cyclicSum_dropLast_closed (f : Pt → Pt → ℚ) (hf : ∀ p, f p p = 0)
    (x : Pt) (xs : List Pt)
    (hc : (x :: xs).getLastD (0, 0) = (x :: xs).headD (0, 0)) :
    cyclicSum f (x :: xs) = cyclicSum f (x :: xs).dropLast := by
  match xs with
  | [] => simp [cyclicSum, hf]
  | b :: t =>
    have hne : (x :: b :: t) ≠ [] := List.cons_ne_nil _ _
    have h1 : (x :: b :: t).getLastD (0, 0) = (x :: b :: t).getLast hne := by
      rw [List.getLastD_eq_getLast?, List.getLast?_eq_getLast _ hne]
      rfl
    have hlast : (x :: b :: t).getLast hne = x := by rw [← h1]; exact hc
    have hsplit : (x :: b :: t).dropLast ++ [x] = x :: b :: t := by
      have h2 := List.dropLast_append_getLast hne
      rw [hlast] at h2
      exact h2
    have hdl : (x :: b :: t).dropLast = x :: (b :: t).dropLast := rfl
    calc cyclicSum f (x :: b :: t)
        = cyclicSum f ((x :: b :: t).dropLast ++ [x]) := by rw [hsplit]
      _ = cyclicSum f ((x :: (b :: t).dropLast) ++ [x]) := by rw [hdl]
      _ = cyclicSum f (x :: (b :: t).dropLast) := cyclicSum_append_headI f hf x _
      _ = cyclicSum f (x :: b :: t).dropLast := by rw [← hdl]

/-- C5: with exactly one polygon `getLargestPolygon` returns it unchanged;
with any nonempty input it returns the polygon at the first index
attaining the maximal outer-ring unsigned shoelace area (so a strictly
largest polygon is returned wherever the others sit, and area ties keep
the first-seen polygon). -/
theorem getLargestPolygon_first_max (cs : List (List (List Pt))) :
    (cs.length = 1 → getLargestPolygon cs = cs.headI) ∧
    (cs ≠ [] → ∃ i, i < cs.length ∧ getLargestPolygon cs = cs.getD i [] ∧
      (∀ j, j < cs.length →
        ringArea ((cs.getD j []).headI) ≤ ringArea ((cs.getD i []).headI)) ∧
      (∀ j, j < i →
        ringArea ((cs.getD j []).headI) < ringArea ((cs.getD i []).headI))) := by
  constructor
  · intro h
    simp [getLargestPolygon, h]
  · intro hne
    by_cases hlen : cs.length = 1
    · obtain ⟨c, rfl⟩ := List.length_eq_one.mp hlen
      exact ⟨0, by simp, by simp [getLargestPolygon], by simp, by omega⟩
    · have hrw : getLargestPolygon cs =
          (cs.foldl
            (fun s polygon =>
              if ringArea polygon.headI > s.2 then (polygon, ringArea polygon.headI) else s)
            (cs.headI, 0)).1 := by
        simp [getLargestPolygon, hlen]
      rcases largestPolygon_fold_spec cs cs.headI 0 with ⟨heq, hall⟩ | ⟨i, hi, heq, _, hall, hfirst⟩
      · obtain ⟨c, t, rfl⟩ := List.exists_cons_of_ne_nil hne
        refine ⟨0, by simp, by rw [hrw, heq]; simp, ?_, by omega⟩
        intro j hj
        exact le_trans (hall _ (List.getD_eq_getElem _ [] hj ▸ List.getElem_mem hj))
          (ringArea_nonneg _)
      · exact ⟨i, hi, by simp [hrw, heq], hall, hfirst⟩

/-- Witness for C5: a small triangle (area `1/2`) and a larger closed
square (area `16`): the characterization applies to the two-polygon list
and the singleton list passes through unchanged. -/
theorem getLargestPolygon_first_max_witness :
    (getLargestPolygon [[[(0, 0), (4, 0), (4, 4), (0, 4), (0, 0)]]] =
      [[(0, 0), (4, 0), (4, 4), (0, 4), (0, 0)]]) ∧
    (∃ i, i < ([[[(0, 0), (1, 0), (0, 1)]], [[(0, 0), (4, 0), (4, 4), (0, 4), (0, 0)]]] :
        List (List (List Pt))).length ∧
      getLargestPolygon [[[(0, 0), (1, 0), (0, 1)]], [[(0, 0), (4, 0), (4, 4), (0, 4), (0, 0)]]] =
        ([[[(0, 0), (1, 0), (0, 1)]], [[(0, 0), (4, 0), (4, 4), (0, 4), (0, 0)]]] :
          List (List (List Pt))).getD i [] ∧
      (∀ j, j < ([[[(0, 0), (1, 0), (0, 1)]], [[(0, 0), (4, 0), (4, 4), (0, 4), (0, 0)]]] :
          List (List (List Pt))).length →
        ringArea ((([[[(0, 0), (1, 0), (0, 1)]],
            [[(0, 0), (4, 0), (4, 4), (0, 4), (0, 0)]]] :
          List (List (List Pt))).getD j []).headI) ≤
        ringArea ((([[[(0, 0), (1, 0), (0, 1)]],
            [[(0, 0), (4, 0), (4, 4), (0, 4), (0, 0)]]] :
          List (List (List Pt))).getD i []).headI)) ∧
      (∀ j, j < i →
        ringArea ((([[[(0, 0), (1, 0), (0, 1)]],
            [[(0, 0), (4, 0), (4, 4), (0, 4), (0, 0)]]] :
          List (List (List Pt))).getD j []).headI) <
        ringArea ((([[[(0, 0), (1, 0), (0, 1)]],
            [[(0, 0), (4, 0), (4, 4), (0, 4), (0, 0)]]] :
          List (List (List Pt))).getD i []).headI))) :=
  ⟨(getLargestPolygon_first_max
      [[[(0, 0), (4, 0), (4, 4), (0, 4), (0, 0)]]]).1 rfl,
   (getLargestPolygon_first_max
      [[[(0, 0), (1, 0), (0, 1)]], [[(0, 0), (4, 0), (4, 4), (0, 4), (0, 0)]]]).2
      (by simp)⟩

/-- C7 (amended): appending a copy of the first point to a nonempty ring
never changes the outer-ring unsigned shoelace area used by
`getLargestPolygon` (hence never changes which polygon is selected), and
it never changes `getPolygonCenter` when the ring is open (last point
different from first) or when the normalized ring is non-degenerate
(`|A| ≥ 1e-10`).  For an already-closed ring with degenerate area the
arithmetic-mean fallback may change — see the counterexample. -/
theorem ringClosure_invariance (r : List Pt) (hne : r ≠ []) :
    ringArea (r ++ [r.headI]) = ringArea r ∧
    (r.getLastD (0, 0) ≠ r.headD (0, 0) →
      getPolygonCenter [r ++ [r.headI]] = getPolygonCenter [r]) ∧
    (1 / 10 ^ 10 ≤ |shoelaceSum (cleanRing r) / 2| →
      getPolygonCenter [r ++ [r.headI]] = getPolygonCenter [r]) := by
  obtain ⟨x, xs, rfl⟩ := List.exists_cons_of_ne_nil hne
  have hcond : ((x :: xs) ++ [x]).getLastD (0, 0) = ((x :: xs) ++ [x]).headD (0, 0) := by
    rw [List.getLastD_concat]
    rfl
  have hcleanL : cleanRing ((x :: xs) ++ [x]) = x :: xs := by
    unfold cleanRing
    rw [if_pos hcond]
    exact List.dropLast_concat
  by_cases hc : (x :: xs).getLastD (0, 0) = (x :: xs).headD (0, 0)
  · -- the ring is already closed: normalization drops its last point
    have hcleanR : cleanRing (x :: xs) = (x :: xs).dropLast := by
      unfold cleanRing
      rw [if_pos hc]
    have hcross : ∀ p : Pt, crossTerm p p = 0 := fun p => by simp [crossTerm]
    have hs1 : shoelaceSum (x :: xs) = shoelaceSum (x :: xs).dropLast :=
      cyclicSum_dropLast_closed crossTerm hcross x xs hc
    have hs2 : weightedSumX (x :: xs) = weightedSumX (x :: xs).dropLast :=
      cyclicSum_dropLast_closed _ (fun p => by simp [crossTerm]) x xs hc
    have hs3 : weightedSumY (x :: xs) = weightedSumY (x :: xs).dropLast :=
      cyclicSum_dropLast_closed _ (fun p => by simp [crossTerm]) x xs hc
    refine ⟨?_, fun hopen => absurd hc hopen, fun hbig => ?_⟩
    · unfold ringArea
      simp only [List.headI]
      rw [hcleanL, hcleanR, hs1]
    · rw [hcleanR] at hbig
      simp only [getPolygonCenter, centerOfRing, List.headI]
      rw [hcleanL, hcleanR, hs1, hs2, hs3]
      rw [if_neg (not_lt.mpr hbig), if_neg (not_lt.mpr hbig)]
  · -- the ring is open: both presentations normalize to the same list
    have hcleanR : cleanRing (x :: xs) = x :: xs := by
      unfold cleanRing
      rw [if_neg hc]
    have hcenter : getPolygonCenter [(x :: xs) ++ [(x :: xs).headI]] =
        getPolygonCenter [x :: xs] := by
      simp only [getPolygonCenter, centerOfRing, List.headI]
      rw [hcleanL, hcleanR]
    refine ⟨?_, fun _ => hcenter, fun _ => hcenter⟩
    unfold ringArea
    simp only [List.headI]
    rw [hcleanL, hcleanR]

/-- Counterexample for C7 as stated: for the already-closed degenerate
ring `(0,0),(2,0),(0,0)`, appending a copy of the first point changes the
centroid (the arithmetic-mean fallback averages `[(0,0),(2,0)]` in one
case and `[(0,0),(2,0),(0,0)]` in the other): `lng` moves from `1` to
`2/3`. -/
theorem ringClosure_invariance_counterexample :
    ([((0:ℚ), (0:ℚ)), (2, 0), (0, 0)] ++ [[((0:ℚ), (0:ℚ)), (2, 0), (0, 0)].headI] =
      [((0:ℚ), (0:ℚ)), (2, 0), (0, 0), (0, 0)]) ∧
    getPolygonCenter [[((0:ℚ), (0:ℚ)), (2, 0), (0, 0), (0, 0)]] ≠
      getPolygonCenter [[((0:ℚ), (0:ℚ)), (2, 0), (0, 0)]] := by
  constructor
  · rfl
  · norm_num [getPolygonCenter, centerOfRing, cleanRing, shoelaceSum, weightedSumX,
      weightedSumY, cyclicSum, crossTerm, Finset.sum_range_succ, LatLng.mk.injEq]

/-- Witness for C7 (amended): for the open triangle ring
`(0,0),(3,0),(0,3)` all three conjuncts apply. -/
theorem ringClosure_invariance_witness :
    (ringArea ([((0:ℚ), (0:ℚ)), (3, 0), (0, 3)] ++
        [[((0:ℚ), (0:ℚ)), (3, 0), (0, 3)].headI]) =
      ringArea [((0:ℚ), (0:ℚ)), (3, 0), (0, 3)]) ∧
    (getPolygonCenter [[((0:ℚ), (0:ℚ)), (3, 0), (0, 3)] ++
        [[((0:ℚ), (0:ℚ)), (3, 0), (0, 3)].headI]] =
      getPolygonCenter [[((0:ℚ), (0:ℚ)), (3, 0), (0, 3)]]) ∧
    (getPolygonCenter [[((0:ℚ), (0:ℚ)), (3, 0), (0, 3)] ++
        [[((0:ℚ), (0:ℚ)), (3, 0), (0, 3)].headI]] =
      getPolygonCenter [[((0:ℚ), (0:ℚ)), (3, 0), (0, 3)]]) := by
  have h := ringClosure_invariance [((0:ℚ), (0:ℚ)), (3, 0), (0, 3)] (List.cons_ne_nil _ _)
  refine ⟨h.1, h.2.1 ?_, h.2.2 ?_⟩
  · norm_num [List.getLastD, Prod.ext_iff]
  · norm_num [shoelaceSum, cleanRing, cyclicSum, crossTerm, Finset.sum_range_succ]
    rw [abs_of_nonneg (by norm_num : (0:ℚ) ≤ 9/2)]
    norm_num

/-- The closest-to-center reduce returns a member of the list attaining
the minimal (squared) distance to the map center. -/
lemma reduceClosest_spec (mc : LatLng) (rest : List NeighborhoodFeature) :
    ∀ first, reduceClosest mc first rest ∈ first :: rest ∧
      ∀ x ∈ first :: rest,
        sqDist mc (featureCenter (reduceClosest mc first rest)) ≤
          sqDist mc (featureCenter x) := by
  induction rest with
  | nil =>
    intro first
    refine ⟨List.mem_cons_self _ _, ?_⟩
    intro x hx
    rw [List.mem_singleton.mp hx]
    exact le_refl _
  | cons c t ih =>
    intro first
    have hstep : reduceClosest mc first (c :: t) =
        reduceClosest mc
          (if sqDist mc (featureCenter c) < sqDist mc (featureCenter first)
            then c else first) t := rfl
    rw [hstep]
    obtain ⟨hmem, hbound⟩ := ih
      (if sqDist mc (featureCenter c) < sqDist mc (featureCenter first) then c else first)
    constructor
    · rcases List.mem_cons.mp hmem with heq | hmem2
      · rw [heq]
        split
        · exact List.mem_cons_of_mem _ (List.mem_cons_self _ _)
        · exact List.mem_cons_self _ _
      · exact List.mem_cons_of_mem _ (List.mem_cons_of_mem _ hmem2)
    · intro x hx
      have hmid := hbound _ (List.mem_cons_self _ _)
      rcases List.mem_cons.mp hx with rfl | hx2
      · refine le_trans hmid ?_
        split
        · next h => exact le_of_lt h
        · exact le_refl _
      rcases List.mem_cons.mp hx2 with rfl | hx3
      · refine le_trans hmid ?_
        split
        · exact le_refl _
        · next h => exact not_lt.mp h
      · exact hbound x (List.mem_cons_of_mem _ hx3)

/-- The most-places-then-closest reduce of the central cluster returns a
member that no other member beats lexicographically: no member has
strictly more places, and among equal place counts none is strictly
closer to the map center. -/
lemma reduceMostPlacesThenClosest_spec (places : Option PlacesMap) (mc : LatLng)
    (rest : List NeighborhoodFeature) :
    ∀ first, reduceMostPlacesThenClosest places mc first rest ∈ first :: rest ∧
      ∀ x ∈ first :: rest,
        getPlaceCount places x ≤
          getPlaceCount places (reduceMostPlacesThenClosest places mc first rest) ∧
        (getPlaceCount places x =
            getPlaceCount places (reduceMostPlacesThenClosest places mc first rest) →
          sqDist mc (featureCenter (reduceMostPlacesThenClosest places mc first rest)) ≤
            sqDist mc (featureCenter x)) := by
  induction rest with
  | nil =>
    intro first
    refine ⟨List.mem_cons_self _ _, ?_⟩
    intro x hx
    rw [List.mem_singleton.mp hx]
    exact ⟨le_refl _, fun _ => le_refl _⟩
  | cons c t ih =>
    intro first
    have hstep : reduceMostPlacesThenClosest places mc first (c :: t) =
        reduceMostPlacesThenClosest places mc
          (if getPlaceCount places c > getPlaceCount places first then c
            else if getPlaceCount places c = getPlaceCount places first then
              if sqDist mc (featureCenter c) < sqDist mc (featureCenter first)
              then c else first
            else first) t := rfl
    set mid := (if getPlaceCount places c > getPlaceCount places first then c
      else if getPlaceCount places c = getPlaceCount places first then
        if sqDist mc (featureCenter c) < sqDist mc (featureCenter first)
        then c else first
      else first) with hmiddef
    obtain ⟨hmem, hbound⟩ := ih mid
    obtain ⟨hm1, hm2⟩ := hbound mid (List.mem_cons_self _ _)
    have hA : getPlaceCount places first ≤ getPlaceCount places mid ∧
        (getPlaceCount places first = getPlaceCount places mid →
          sqDist mc (featureCenter mid) ≤ sqDist mc (featureCenter first)) := by
      rw [hmiddef]
      split_ifs with h1 h2 h3
      · exact ⟨le_of_lt h1, fun he => absurd he (by omega)⟩
      · exact ⟨by omega, fun _ => le_of_lt h3⟩
      · exact ⟨le_refl _, fun _ => le_refl _⟩
      · exact ⟨le_refl _, fun _ => le_refl _⟩
    have hB : getPlaceCount places c ≤ getPlaceCount places mid ∧
        (getPlaceCount places c = getPlaceCount places mid →
          sqDist mc (featureCenter mid) ≤ sqDist mc (featureCenter c)) := by
      rw [hmiddef]
      split_ifs with h1 h2 h3
      · exact ⟨le_refl _, fun _ => le_refl _⟩
      · exact ⟨le_refl _, fun _ => le_refl _⟩
      · exact ⟨by omega, fun _ => not_lt.mp h3⟩
      · exact ⟨by omega, fun he => absurd he h2⟩
    have hchain : ∀ x, (getPlaceCount places x ≤ getPlaceCount places mid ∧
          (getPlaceCount places x = getPlaceCount places mid →
            sqDist mc (featureCenter mid) ≤ sqDist mc (featureCenter x))) →
        getPlaceCount places x ≤
          getPlaceCount places (reduceMostPlacesThenClosest places mc mid t) ∧
        (getPlaceCount places x =
            getPlaceCount places (reduceMostPlacesThenClosest places mc mid t) →
          sqDist mc (featureCenter (reduceMostPlacesThenClosest places mc mid t)) ≤
            sqDist mc (featureCenter x)) := by
      intro x hx
      obtain ⟨hx1, hx2⟩ := hx
      refine ⟨le_trans hx1 hm1, fun heq => ?_⟩
      exact le_trans (hm2 (by omega)) (hx2 (by omega))
    rw [hstep]
    constructor
    · rcases List.mem_cons.mp hmem with heq | hmem2
      · rw [heq, hmiddef]
        split_ifs <;> simp
      · exact List.mem_cons_of_mem _ (List.mem_cons_of_mem _ hmem2)
    · intro x hx
      rcases List.mem_cons.mp hx with rfl | hx2
      · exact hchain _ hA
      rcases List.mem_cons.mp hx2 with rfl | hx3
      · exact hchain _ hB
      · exact hbound x (List.mem_cons_of_mem _ hx3)

/-- The most-places reduce of non-central clusters returns a list member. -/
lemma reduceMostPlaces_mem (places : Option PlacesMap) (rest : List NeighborhoodFeature) :
    ∀ first, reduceMostPlaces places first rest ∈ first :: rest := by
  induction rest with
  | nil => intro first; exact List.mem_cons_self _ _
  | cons c t ih =>
    intro first
    have hstep : reduceMostPlaces places first (c :: t) =
        reduceMostPlaces places
          (if getPlaceCount places c > getPlaceCount places first then c else first) t := rfl
    rw [hstep]
    rcases List.mem_cons.mp (ih
        (if getPlaceCount places c > getPlaceCount places first then c else first)) with
      heq | hmem
    · rw [heq]
      split
      · exact List.mem_cons_of_mem _ (List.mem_cons_self _ _)
      · exact List.mem_cons_self _ _
    · exact List.mem_cons_of_mem _ (List.mem_cons_of_mem _ hmem)

/-- Whatever the branch, the selected representative is a group member. -/
lemma selectRepresentative_mem (places : Option PlacesMap) (mc : LatLng)
    (isCentral : Bool) (cluster : List NeighborhoodFeature) (hne : cluster ≠ []) :
    selectRepresentative places mc isCentral cluster ∈ cluster := by
  obtain ⟨f0, rest, rfl⟩ := List.exists_cons_of_ne_nil hne
  unfold selectRepresentative
  cases isCentral with
  | true =>
    simp only [if_true]
    cases hfil : (f0 :: rest).filter (hasPlacesB places) with
    | nil => exact (reduceClosest_spec mc rest f0).1
    | cons w0 wrest =>
      have hmem := (reduceMostPlacesThenClosest_spec places mc wrest w0).1
      have : reduceMostPlacesThenClosest places mc w0 wrest ∈
          (f0 :: rest).filter (hasPlacesB places) := by rw [hfil]; exact hmem
      exact (List.mem_filter.mp this).1
  | false =>
    simp only [Bool.false_eq_true, if_false]
    cases hfil : (f0 :: rest).filter (hasPlacesB places) with
    | nil => exact List.mem_cons_self _ _
    | cons w0 wrest =>
      have hmem := reduceMostPlaces_mem places wrest w0
      have : reduceMostPlaces places w0 wrest ∈
          (f0 :: rest).filter (hasPlacesB places) := by rw [hfil]; exact hmem
      exact (List.mem_filter.mp this).1

/-- C1: for every two-region input, `clusterNeighborhoods` merges the two
regions into one group exactly when the planar distance between their
largest-polygon centroids is strictly below the threshold (the comparison
is embedded squared via `sqDistLtB`, exactly equivalent to
`Math.sqrt(d) < clusterDistance`); the merged output is the single region
built from the chosen representative, with `clusterMembers` listing both
original names in discovery order and display name `"<A> & <B>"`
(representative first).  Additionally, for any group of `N ≥ 3` members
the display name is `"<rep> (+<N-1>)"` and `clusterMembers` lists all
member names in discovery order. -/
theorem clusterNeighborhoods_pair_merge :
    (∀ (a b : NeighborhoodFeature) (cd : ℚ) (mc : LatLng) (places : Option PlacesMap),
      (sqDistLtB (sqDist (featureCenter a) (featureCenter b)) cd = true →
        ∃ rep other, ((rep = a ∧ other = b) ∨ (rep = b ∧ other = a)) ∧
          clusterNeighborhoods [a, b] cd mc places =
            some [{ rep with
                    ntaname := rep.ntaname ++ " & " ++ other.ntaname,
                    originalNtaname := some rep.ntaname,
                    clusterMembers := some [a.ntaname, b.ntaname] }]) ∧
      (sqDistLtB (sqDist (featureCenter a) (featureCenter b)) cd = false →
        clusterNeighborhoods [a, b] cd mc places = some [a, b])) ∧
    (∀ (places : Option PlacesMap) (mc : LatLng) (isC : Bool)
        (f0 f1 f2 : NeighborhoodFeature) (rest : List NeighborhoodFeature),
      (processCluster places mc isC (f0 :: f1 :: f2 :: rest)).ntaname =
        (selectRepresentative places mc isC (f0 :: f1 :: f2 :: rest)).ntaname ++
          " (+" ++ toString ((f0 :: f1 :: f2 :: rest).length - 1) ++ ")" ∧
      (processCluster places mc isC (f0 :: f1 :: f2 :: rest)).clusterMembers =
        some ((f0 :: f1 :: f2 :: rest).map fun f => f.ntaname)) := by
  constructor
  · intro a b cd mc places
    constructor
    · intro hD
      have hb : buildClusters [a, b] cd mc (List.range 2) [] =
          [([a, b], sqDist mc (featureCenter a))] := by
        have hrange : List.range 2 = [0, 1] := by decide
        rw [hrange]
        simp [buildClusters, hD, hrange]
      have hclu : clusterNeighborhoods [a, b] cd mc places =
          some [processCluster places mc true [a, b]] := by
        simp only [clusterNeighborhoods]
        rw [show List.range [a, b].length = List.range 2 from rfl, hb]
        simp
      have hproc : processCluster places mc true [a, b] =
          { selectRepresentative places mc true [a, b] with
            ntaname := (selectRepresentative places mc true [a, b]).ntaname ++ " & " ++
              (if selectRepresentative places mc true [a, b] = a then b else a).ntaname
            originalNtaname := some (selectRepresentative places mc true [a, b]).ntaname
            clusterMembers := some [a.ntaname, b.ntaname] } := by
        simp [processCluster]
      refine ⟨selectRepresentative places mc true [a, b],
        if selectRepresentative places mc true [a, b] = a then b else a, ?_, ?_⟩
      · by_cases hra : selectRepresentative places mc true [a, b] = a
        · exact Or.inl ⟨hra, if_pos hra⟩
        · have hmem := selectRepresentative_mem places mc true [a, b] (by simp)
          rcases List.mem_cons.mp hmem with h | h
          · exact absurd h hra
          · exact Or.inr ⟨List.mem_singleton.mp h, if_neg hra⟩
      · rw [hclu, hproc]
    · intro hD
      have hb : buildClusters [a, b] cd mc (List.range 2) [] =
          [([a], sqDist mc (featureCenter a)), ([b], sqDist mc (featureCenter b))] := by
        have hrange : List.range 2 = [0, 1] := by decide
        rw [hrange]
        simp [buildClusters, hD, hrange]
      simp only [clusterNeighborhoods]
      rw [show List.range [a, b].length = List.range 2 from rfl, hb]
      simp only [List.enum, List.enumFrom, List.tail, List.foldl, List.map]
      simp [processCluster]
  · intro places mc isC f0 f1 f2 rest
    simp [processCluster]

/-- Witness for C1: the sample triangles have centroids `(1,1)` and
`(1.01,1)`, `0.01` apart in degree space: they merge at threshold `0.1`
and stay separate at threshold `0.005`. -/
theorem clusterNeighborhoods_pair_merge_witness :
    (∃ rep other,
      ((rep = sampleA ∧ other = sampleB) ∨ (rep = sampleB ∧ other = sampleA)) ∧
      clusterNeighborhoods [sampleA, sampleB] (1/10) ⟨0, 0⟩ none =
        some [{ rep with
                ntaname := rep.ntaname ++ " & " ++ other.ntaname,
                originalNtaname := some rep.ntaname,
                clusterMembers := some [sampleA.ntaname, sampleB.ntaname] }]) ∧
    clusterNeighborhoods [sampleA, sampleB] (1/200) ⟨0, 0⟩ none =
      some [sampleA, sampleB] := by
  have hcA : featureCenter sampleA = ⟨1, 1⟩ := by
    norm_num [featureCenter, sampleA, getLargestPolygon, getPolygonCenter, centerOfRing,
      cleanRing, shoelaceSum, weightedSumX, weightedSumY, cyclicSum, crossTerm,
      Finset.sum_range_succ]
  have hcB : featureCenter sampleB = ⟨1, 101/100⟩ := by
    norm_num [featureCenter, sampleB, getLargestPolygon, getPolygonCenter, centerOfRing,
      cleanRing, shoelaceSum, weightedSumX, weightedSumY, cyclicSum, crossTerm,
      Finset.sum_range_succ]
  constructor
  · refine (clusterNeighborhoods_pair_merge.1 sampleA sampleB (1/10) ⟨0, 0⟩ none).1 ?_
    rw [hcA, hcB]
    norm_num [sqDistLtB, sqDist]
  · refine (clusterNeighborhoods_pair_merge.1 sampleA sampleB (1/200) ⟨0, 0⟩ none).2 ?_
    rw [hcA, hcB]
    norm_num [sqDistLtB, sqDist]

/-- C2: for the representative selection applied to the central group
(`isCentral = true`, as decided by `cluster === centralCluster.cluster` in
`clusterNeighborhoods`) of a multi-member group with a supplied places
mapping: when some member has places the representative has places, no
member has strictly more places than it, and among members tying its place
count none is strictly closer to the map center (distances are compared
squared, which is equivalent under the strictly monotone square root);
when no member has places the representative is a closest member to the
map center. -/
theorem selectRepresentative_central_policy (pm : PlacesMap) (mc : LatLng)
    (cluster : List NeighborhoodFeature) (hlen : 2 ≤ cluster.length) :
    selectRepresentative (some pm) mc true cluster ∈ cluster ∧
    ((∃ f ∈ cluster, hasPlacesB (some pm) f = true) →
      hasPlacesB (some pm) (selectRepresentative (some pm) mc true cluster) = true ∧
      ∀ m ∈ cluster, hasPlacesB (some pm) m = true →
        getPlaceCount (some pm) m ≤
          getPlaceCount (some pm) (selectRepresentative (some pm) mc true cluster) ∧
        (getPlaceCount (some pm) m =
            getPlaceCount (some pm) (selectRepresentative (some pm) mc true cluster) →
          sqDist mc (featureCenter (selectRepresentative (some pm) mc true cluster)) ≤
            sqDist mc (featureCenter m))) ∧
    ((∀ f ∈ cluster, hasPlacesB (some pm) f = false) →
      ∀ m ∈ cluster,
        sqDist mc (featureCenter (selectRepresentative (some pm) mc true cluster)) ≤
          sqDist mc (featureCenter m)) := by
  have hne : cluster ≠ [] := by
    intro h
    rw [h] at hlen
    simp at hlen
  cases hfil : cluster.filter (hasPlacesB (some pm)) with
  | nil =>
    obtain ⟨f0, rest, rfl⟩ := List.exists_cons_of_ne_nil hne
    have hsel : selectRepresentative (some pm) mc true (f0 :: rest) =
        reduceClosest mc f0 rest := by
      simp [selectRepresentative, hfil]
    obtain ⟨hmem, hbound⟩ := reduceClosest_spec mc rest f0
    refine ⟨by rw [hsel]; exact hmem, ?_, ?_⟩
    · rintro ⟨f, hf, hp⟩
      have : f ∈ (f0 :: rest).filter (hasPlacesB (some pm)) :=
        List.mem_filter.mpr ⟨hf, hp⟩
      rw [hfil] at this
      simp at this
    · intro _ m hm
      rw [hsel]
      exact hbound m hm
  | cons w0 wrest =>
    have hsel : selectRepresentative (some pm) mc true cluster =
        reduceMostPlacesThenClosest (some pm) mc w0 wrest := by
      simp [selectRepresentative, hfil]
    obtain ⟨hmem, hbound⟩ := reduceMostPlacesThenClosest_spec (some pm) mc wrest w0
    have hsub : ∀ y ∈ w0 :: wrest, y ∈ cluster ∧ hasPlacesB (some pm) y = true := by
      intro y hy
      rw [← hfil] at hy
      exact ⟨(List.mem_filter.mp hy).1, (List.mem_filter.mp hy).2⟩
    refine ⟨by rw [hsel]; exact (hsub _ hmem).1, ?_, ?_⟩
    · intro _
      refine ⟨by rw [hsel]; exact (hsub _ hmem).2, ?_⟩
      intro m hm hp
      have hmf : m ∈ w0 :: wrest := by
        rw [← hfil]
        exact List.mem_filter.mpr ⟨hm, hp⟩
      rw [hsel]
      exact hbound m hmf
    · intro hnone
      have h1 := (hsub _ (List.mem_cons_self w0 wrest)).2
      have h2 := hnone w0 (hsub _ (List.mem_cons_self w0 wrest)).1
      rw [h1] at h2
      exact absurd h2 (by simp)

/-- Witness for C2: in the 2-member central group `[A, B]` where `B` has
two places and `A` one, the selection policy applies: the representative
is a member with places beating all place counts (it is in fact `B`), and
with an empty places table the selection is distance-minimal. -/
theorem selectRepresentative_central_policy_witness :
    (selectRepresentative (some samplePlaces) ⟨1, 1⟩ true [sampleA, sampleB] ∈
      [sampleA, sampleB] ∧
     hasPlacesB (some samplePlaces)
       (selectRepresentative (some samplePlaces) ⟨1, 1⟩ true [sampleA, sampleB]) = true) ∧
    sqDist ⟨1, 1⟩ (featureCenter
        (selectRepresentative (some (fun _ => [])) ⟨1, 1⟩ true [sampleA, sampleB])) ≤
      sqDist ⟨1, 1⟩ (featureCenter sampleB) := by
  have h := selectRepresentative_central_policy samplePlaces ⟨1, 1⟩ [sampleA, sampleB]
    (by simp)
  have h0 := selectRepresentative_central_policy (fun _ => []) ⟨1, 1⟩ [sampleA, sampleB]
    (by simp)
  refine ⟨⟨h.1, ?_⟩, ?_⟩
  · refine (h.2.1 ⟨sampleB, List.mem_cons_of_mem _ (List.mem_cons_self _ _), rfl⟩).1
  · exact h0.2.2 (fun f _ => rfl) sampleB (List.mem_cons_of_mem _ (List.mem_cons_self _ _))

/-- C10: `clusterNeighborhoods` is defined exactly on nonempty inputs:
every nonempty feature list yields `some` list with at least one region,
while the empty list produces zero groups, so the central-group
`allClusters.reduce(...)` (a reduce with no initial value) throws — the
embedding returns `none` rather than an empty list. -/
theorem clusterNeighborhoods_empty_guard (cd : ℚ) (mc : LatLng) (places : Option PlacesMap) :
    (∀ features : List NeighborhoodFeature, features ≠ [] →
      ∃ out, clusterNeighborhoods features cd mc places = some out ∧ 0 < out.length) ∧
    clusterNeighborhoods [] cd mc places = none := by
  constructor
  · intro features hne
    obtain ⟨f, fs, rfl⟩ := List.exists_cons_of_ne_nil hne
    have hb : ∃ c0 crest,
        buildClusters (f :: fs) cd mc (List.range (f :: fs).length) [] = c0 :: crest := by
      rw [List.length_cons, List.range_succ_eq_map]
      simp only [buildClusters, List.not_mem_nil, if_false]
      exact ⟨_, _, rfl⟩
    obtain ⟨c0, crest, hb⟩ := hb
    have h : ∃ out, clusterNeighborhoods (f :: fs) cd mc places = some out ∧
        out.length = (c0 :: crest).length := by
      simp only [clusterNeighborhoods]
      rw [hb]
      exact ⟨_, rfl, by simp⟩
    obtain ⟨out, hout, hlen⟩ := h
    exact ⟨out, hout, by rw [hlen]; simp⟩
  · rfl

/-- Witness for C10: the singleton input `[A]` yields a nonempty output
and the empty input yields the error result. -/
theorem clusterNeighborhoods_empty_guard_witness :
    (∃ out, clusterNeighborhoods [sampleA] (1/10) ⟨0, 0⟩ none = some out ∧
      0 < out.length) ∧
    clusterNeighborhoods [] (1/10) ⟨0, 0⟩ none = none :=
  ⟨(clusterNeighborhoods_empty_guard (1/10) ⟨0, 0⟩ none).1 [sampleA]
      (List.cons_ne_nil _ _),
   (clusterNeighborhoods_empty_guard (1/10) ⟨0, 0⟩ none).2⟩

/-- C8: for every seed string (as UTF-16 code units),
`generateColorFromSeed` produces integer channels in `[0, 255]`, is
literally the k-based HSL→RGB conversion of
`hue = |hash| mod 360`, `saturation = 70 + (|hash·13| mod 30)` and
`lightness = 45 + (|hash·7| mod 25)`, and two calls with equal seeds
return identical colors. -/
theorem generateColorFromSeed_valid (seed : List ℕ) :
    (0 ≤ (generateColorFromSeed seed).r ∧ (generateColorFromSeed seed).r ≤ 255) ∧
    (0 ≤ (generateColorFromSeed seed).g ∧ (generateColorFromSeed seed).g ≤ 255) ∧
    (0 ≤ (generateColorFromSeed seed).b ∧ (generateColorFromSeed seed).b ≤ 255) ∧
    (generateColorFromSeed seed =
      hslToRgb (((seed.foldl (fun h c => h * 31 + (c : ℤ)) 0).natAbs % 360 : ℕ))
        ((70 + ((seed.foldl (fun h c => h * 31 + (c : ℤ)) 0) * 13).natAbs % 30 : ℕ))
        ((45 + ((seed.foldl (fun h c => h * 31 + (c : ℤ)) 0) * 7).natAbs % 25 : ℕ))) ∧
    (∀ seed2, seed2 = seed → generateColorFromSeed seed2 = generateColorFromSeed seed) := by
  have hs : (70 + ((seed.foldl (fun h c => h * 31 + (c : ℤ)) 0) * 13).natAbs % 30) ≤ 100 := by
    have := Nat.mod_lt ((seed.foldl (fun h c => h * 31 + (c : ℤ)) 0) * 13).natAbs
      (show 0 < 30 by norm_num)
    omega
  have hl : (45 + ((seed.foldl (fun h c => h * 31 + (c : ℤ)) 0) * 7).natAbs % 25) ≤ 100 := by
    have := Nat.mod_lt ((seed.foldl (fun h c => h * 31 + (c : ℤ)) 0) * 7).natAbs
      (show 0 < 25 by norm_num)
    omega
  have hb := hslToRgb_channels_bounded
    (((seed.foldl (fun h c => h * 31 + (c : ℤ)) 0).natAbs % 360 : ℕ))
    ((70 + ((seed.foldl (fun h c => h * 31 + (c : ℤ)) 0) * 13).natAbs % 30 : ℕ))
    ((45 + ((seed.foldl (fun h c => h * 31 + (c : ℤ)) 0) * 7).natAbs % 25 : ℕ))
    (Nat.cast_nonneg _) (by exact_mod_cast hs) (Nat.cast_nonneg _) (by exact_mod_cast hl)
  have hdef : generateColorFromSeed seed =
      hslToRgb (((seed.foldl (fun h c => h * 31 + (c : ℤ)) 0).natAbs % 360 : ℕ))
        ((70 + ((seed.foldl (fun h c => h * 31 + (c : ℤ)) 0) * 13).natAbs % 30 : ℕ))
        ((45 + ((seed.foldl (fun h c => h * 31 + (c : ℤ)) 0) * 7).natAbs % 25 : ℕ)) := rfl
  rw [hdef]
  exact ⟨hb.1, hb.2.1, hb.2.2, rfl, fun seed2 h2 => by rw [h2]; exact hdef⟩

/-- Witness for C8: the one-character seed `[77]` (`"M"`) gets in-range
channels and equal seeds give equal colors. -/
theorem generateColorFromSeed_valid_witness :
    (0 ≤ (generateColorFromSeed [77]).r ∧ (generateColorFromSeed [77]).r ≤ 255) ∧
    generateColorFromSeed [77] = generateColorFromSeed [77] :=
  ⟨(generateColorFromSeed_valid [77]).1,
   (generateColorFromSeed_valid [77]).2.2.2.2 [77] rfl⟩

/-- Witness for C6: the collinear ring `(0,0),(1,0),(2,0)` is nonempty
after normalization, has area `0 < 1e-10`, and its centroid is the plain
vertex mean. -/
theorem getPolygonCenter_degenerate_fallback_witness :
    getPolygonCenter [[(0, 0), (1, 0), (2, 0)]] =
      { lat := ((cleanRing [(0, 0), (1, 0), (2, 0)]).map (fun c => c.2)).sum /
          (cleanRing [(0, 0), (1, 0), (2, 0)]).length,
        lng := ((cleanRing [(0, 0), (1, 0), (2, 0)]).map (fun c => c.1)).sum /
          (cleanRing [(0, 0), (1, 0), (2, 0)]).length } :=
  (getPolygonCenter_degenerate_fallback.1 [(0, 0), (1, 0), (2, 0)]
    (by
      norm_num [cleanRing]
      exact List.cons_ne_nil _ _)
    (by norm_num [shoelaceSum, cleanRing, cyclicSum, crossTerm, Finset.sum_range_succ]))
